import Mathlib

/-!
Shallow embedding of the `tqdm` progress-bar library
(`src/tqdm/tqdm.hpp`, `src/tqdm/progress_bar.hpp`).

Conventions of the embedding:
* The underlying cursor type of `IteratorHook` is instantiated at an
  integer position `ℕ` (e.g. a vector iterator), with `operator++`
  being successor and `operator==` comparing positions; the end cursor
  is the position `end_it_`.
* Wall-clock times (`std::chrono` time points) are integers, measured
  in milliseconds; a default-constructed time point (the epoch) is `0`.
* C++ `double` arithmetic is modelled by exact rationals `ℚ`; casts
  from floating point to integers truncate toward zero (`truncQ`).
  The one place where IEEE semantics diverge from ℚ — the unguarded
  `double(step_) / size_` at `size_ == 0`, which produces NaN — is
  modelled separately by `processedIEEE`.
* Integer division and remainder on C++ signed integers truncate
  toward zero; they are modelled by `Int.tdiv` / `Int.tmod`.
* The side effect of the attached hook is recorded as a trace: each
  hook invocation appends the cursor it was invoked with.
-/

namespace TqdmCpp

/-- Embeds `IteratorHook<It>::Iterator` (tqdm.hpp lines 27-57):
`it_` is the wrapped cursor position, `hook_` records whether the
hook pointer is non-null. -/
structure Iterator where
  it_ : ℕ
  hook_ : Bool
deriving DecidableEq

/-- Embeds `Iterator::operator++` (tqdm.hpp lines 47-51):
`if (hook_) (*hook_)(++it_); return *this;`.  Note that the increment
of the underlying cursor happens only inside the hook invocation, so
when `hook_` is null the operator is a complete no-op.  Returns the
new iterator together with the trace of hook invocations (the list of
cursors the hook was called with). -/
def Iterator.inc (i : Iterator) : Iterator × List ℕ :=
  if i.hook_ then ({ i with it_ := i.it_ + 1 }, [i.it_ + 1])
  else (i, [])

/-- Embeds the copy constructor `Iterator(const Iterator& it)`
(tqdm.hpp line 36): copies `it_` but sets `hook_` to null. -/
def Iterator.copy (i : Iterator) : Iterator :=
  { it_ := i.it_, hook_ := false }

/-- Embeds `Iterator::operator=` (tqdm.hpp lines 39-44): copies both
`it_` and `hook_`. -/
def Iterator.assign (_self other : Iterator) : Iterator :=
  { it_ := other.it_, hook_ := other.hook_ }

/-- Embeds `Iterator::operator==` (tqdm.hpp line 45): compares only
the underlying cursors. -/
def Iterator.eqIt (a b : Iterator) : Bool :=
  a.it_ = b.it_

/-- Embeds `Iterator::operator!=` (tqdm.hpp line 46). -/
def Iterator.neIt (a b : Iterator) : Bool :=
  a.it_ ≠ b.it_

/-- Embeds `Iterator::operator*` (tqdm.hpp line 52): dereference
delegates to the underlying cursor, here reading the sequence at the
cursor position. -/
def Iterator.deref {α : Type} (seq : ℕ → α) (i : Iterator) : α :=
  seq i.it_

/-- Embeds the `IteratorHook` range object (tqdm.hpp lines 21-81):
the stored begin and end cursors.  The stored hook itself is modelled
by the traces produced below. -/
structure IteratorHook where
  begin_it_ : ℕ
  end_it_ : ℕ
deriving DecidableEq

/-- Embeds `IteratorHook::begin` (tqdm.hpp lines 71-75):
`hook_(begin_it_); return Iterator(begin_it_, &hook_);` — invokes the
hook once with the begin cursor, then returns an iterator carrying
the hook.  Returned as (iterator, hook-invocation trace). -/
def IteratorHook.begin (h : IteratorHook) : Iterator × List ℕ :=
  (⟨h.begin_it_, true⟩, [h.begin_it_])

/-- Embeds `IteratorHook::end` (tqdm.hpp line 76):
`return Iterator(end_it_, &hook_);` — no hook invocation happens. -/
def IteratorHook.endIter (h : IteratorHook) : Iterator :=
  ⟨h.end_it_, true⟩

/-- One step of the caller's traversal loop
(`for (auto it = r.begin(); it != r.end(); ++it)`), fuelled to make
it structurally recursive: while the iterator's cursor differs from
the end cursor, apply `operator++` and collect the hook trace. -/
def traverseLoop : ℕ → Iterator → ℕ → List ℕ
  | 0, _, _ => []
  | fuel + 1, i, endv =>
    if i.it_ = endv then []
    else
      let p := i.inc
      p.2 ++ traverseLoop fuel p.1 endv

/-- The hook-invocation trace of a full traversal of the decorated
range: obtain `begin()` (which fires the hook once), then advance
until the iterator compares equal to `end()`. -/
def IteratorHook.fullTraversal (h : IteratorHook) : List ℕ :=
  (h.begin).2 ++ traverseLoop (h.end_it_ - h.begin_it_) (h.begin).1 h.end_it_

/-- Truncation of a rational toward zero, the semantics of a C++ cast
from a floating-point value to an integer type
(`int(...)`, `int num = ...`).  `Int.tdiv` truncates toward zero. -/
def truncQ (q : ℚ) : ℤ :=
  Int.tdiv q.num (q.den : ℤ)

/-- Decimal digit list of a natural number, fuelled so that it is
structurally recursive (`fuel = n + 1` always suffices). -/
def natDigits : ℕ → ℕ → List Char
  | 0, _ => []
  | fuel + 1, n =>
    if n < 10 then [Nat.digitChar n]
    else natDigits fuel (n / 10) ++ [Nat.digitChar (n % 10)]

/-- Embeds `std::to_string` on an unsigned integer: plain decimal,
no padding. -/
def to_string_nat (n : ℕ) : String :=
  ⟨natDigits (n + 1) n⟩

/-- Embeds `std::to_string` on a signed integer: decimal with a
leading minus sign for negative values. -/
def to_string_int (i : ℤ) : String :=
  if i < 0 then "-" ++ to_string_nat i.natAbs else to_string_nat i.natAbs

/-- Embeds `std::setw(2) << std::setfill('0') << v` on a decimal
integer: left-pad the decimal representation with `'0'` up to a
minimum width of two characters. -/
def pad2 (v : ℤ) : String :=
  let s := to_string_int v
  if s.length < 2 then "0" ++ s else s

/-- Embeds the local lambda `to_time_string` of `operator<<`
(tqdm.hpp lines 192-199): format a millisecond duration (`long`) as
`HH:MM:SS` via truncating division and remainder chaining, each field
zero-padded to a minimum of two characters. -/
def to_time_string (milliseconds : ℤ) : String :=
  pad2 (Int.tdiv milliseconds 3600000) ++ ":" ++
    pad2 (Int.tdiv (Int.tmod milliseconds 3600000) 60000) ++ ":" ++
    pad2 (Int.tdiv (Int.tmod milliseconds 60000) 1000)

/-- Embeds the `Tqdm` progress state (tqdm.hpp lines 111-218).
Times are integer milliseconds.  The constructor leaves
`current_time_` and `last_print_time_` default-initialized (the
epoch, `0`); `reset()` touches only `step_`, `first_print_` and
`start_time_`. -/
structure Tqdm where
  size_ : ℕ
  title_ : String
  mininterval_ : ℤ
  width_ : ℤ
  step_ : ℕ
  first_print_ : Bool
  start_time_ : ℤ
  current_time_ : ℤ
  last_print_time_ : ℤ
deriving DecidableEq

/-- Embeds `Tqdm::reset` (tqdm.hpp lines 131-136): zero the counter,
re-arm the first-print flag, restart the clock.  `now` is the value
of `std::chrono::system_clock::now()` at the call. -/
def Tqdm.reset (t : Tqdm) (now : ℤ) : Tqdm :=
  { t with step_ := 0, first_print_ := true, start_time_ := now }

/-- Embeds the `Tqdm` constructor (tqdm.hpp lines 123-126): store the
configuration, then `reset()`.  The two remaining time members are
default-initialized to the epoch. -/
def Tqdm.make (size : ℕ) (title : String) (mininterval : ℤ) (width : ℤ)
    (now : ℤ) : Tqdm :=
  Tqdm.reset
    { size_ := size, title_ := title, mininterval_ := mininterval,
      width_ := width, step_ := 0, first_print_ := true,
      start_time_ := now, current_time_ := 0, last_print_time_ := 0 } now

/-- Embeds `Tqdm::step` (tqdm.hpp lines 143-150): increment the
counter and record the sample time only while `step_ < size_`; in all
cases return the (possibly updated) counter.  Result is
(new state, returned value). -/
def Tqdm.step (t : Tqdm) (now : ℤ) : Tqdm × ℕ :=
  if t.step_ < t.size_ then
    ({ t with step_ := t.step_ + 1, current_time_ := now }, t.step_ + 1)
  else (t, t.step_)

/-- Embeds `Tqdm::isEnd` (tqdm.hpp lines 157-160): `step_ >= size_`. -/
def Tqdm.isEnd (t : Tqdm) : Bool :=
  t.size_ ≤ t.step_

/-- Embeds `double processed = double(tqdm.step_) / tqdm.size_;`
(tqdm.hpp line 179) over exact rationals.  When `size_ = 0` the C++
division is `0.0/0.0 = NaN`; ℚ instead yields the junk value `0`, so
theorems about rendering assume `size_ ≠ 0` — see `processedIEEE`
for the faithful model of that corner. -/
def Tqdm.processed (t : Tqdm) : ℚ :=
  (t.step_ : ℚ) / (t.size_ : ℚ)

/-- Faithful model of the IEEE result of the unguarded division
`double(tqdm.step_) / tqdm.size_` (tqdm.hpp line 179): `none` stands
for the non-finite result (`0.0/0.0 = NaN`, or `±inf` for a nonzero
numerator) produced when `size_ == 0`; otherwise the exact quotient. -/
def processedIEEE (step size : ℕ) : Option ℚ :=
  if size = 0 then none else some ((step : ℚ) / (size : ℚ))

/-- Embeds the bar-building loop of `operator<<` (tqdm.hpp lines
181-187): for `i` from `0` to `width - 1`, emit `'='` when
`double(i) / width <= processed`, else `' '`.  A non-positive width
runs the loop zero times. -/
def tqdmBar (width : ℤ) (processed : ℚ) : String :=
  ⟨(List.range width.toNat).map
    (fun i => if (i : ℚ) / (width : ℚ) ≤ processed then '=' else ' ')⟩

/-- Embeds `cost` (tqdm.hpp line 200): elapsed milliseconds between
the start time and the last sample time. -/
def Tqdm.cost (t : Tqdm) : ℤ :=
  t.current_time_ - t.start_time_

/-- Embeds `estimated_time` (tqdm.hpp line 201):
`step_ ? long(int64_t(cost) * size_ / step_) : 0`. -/
def Tqdm.estimated_time (t : Tqdm) : ℤ :=
  if t.step_ ≠ 0 then Int.tdiv (t.cost * (t.size_ : ℤ)) (t.step_ : ℤ) else 0

/-- Embeds `remaining_time` (tqdm.hpp line 202, computed but never
printed): `step_ ? long(int64_t(cost) * (size_ - step_) / step_) : 0`. -/
def Tqdm.remaining_time (t : Tqdm) : ℤ :=
  if t.step_ ≠ 0 then
    Int.tdiv (t.cost * ((t.size_ : ℤ) - (t.step_ : ℤ))) (t.step_ : ℤ)
  else 0

/-- Embeds `passed_time` (tqdm.hpp line 203):
`step_ ? long(duration_cast<milliseconds>(current_time_ - start_time_).count()) : 0`. -/
def Tqdm.passed_time (t : Tqdm) : ℤ :=
  if t.step_ ≠ 0 then t.cost else 0

/-- The full line assembled by `operator<<` (tqdm.hpp lines 177-205),
in the exact order the source appends its pieces:
`"\r"`, `title_ + " ["`, the bar, `"]"`, `" " + percent + "%"`,
`" " + step + "/" + size`, `" [" + estimated + "<" + passed + "]"`. -/
def Tqdm.frame (t : Tqdm) : String :=
  "\r" ++ (t.title_ ++ " [") ++ tqdmBar t.width_ t.processed ++ "]" ++
    (" " ++ to_string_int (truncQ (t.processed * 100)) ++ "%") ++
    (" " ++ to_string_nat t.step_ ++ "/" ++ to_string_nat t.size_) ++
    (" [" ++ to_time_string t.estimated_time ++ "<" ++
      to_time_string t.passed_time ++ "]")

/-- Embeds `operator<<(std::ostream&, Tqdm&)` (tqdm.hpp lines
169-206).  The early return fires when the frame is neither the first
nor final one and the last print was less than `mininterval_` ago;
otherwise `last_print_time_` is updated, `first_print_` cleared, and
the frame written.  Result is (new state, written text if any). -/
def Tqdm.render (t : Tqdm) (now : ℤ) : Tqdm × Option String :=
  if t.first_print_ = false ∧ t.isEnd = false ∧
      now - t.last_print_time_ < t.mininterval_ then
    (t, none)
  else
    ({ t with last_print_time_ := now, first_print_ := false },
      some t.frame)

/-- Embeds the hook lambda installed by `tqdm(begin_it, end_it, ...)`
(tqdm.hpp lines 241-248): at the end cursor, write the frame (the
stream operator may in principle still throttle — `std::endl` is
written regardless) and return without stepping; otherwise write the
frame if due, then `step()`.  `now` models the wall clock during the
invocation.  Result is (new state, text written to the sink). -/
def driverHook (end_it : ℕ) (t : Tqdm) (it : ℕ) (now : ℤ) :
    Tqdm × String :=
  if it = end_it then
    let r := t.render now
    (r.1, r.2.getD "" ++ "\n")
  else
    let r := t.render now
    ((Tqdm.step r.1 now).1, r.2.getD "")

/-- Runs the driver hook over a list of (cursor, time) invocations,
collecting the chunk of text each invocation writes to the sink. -/
def runHook (end_it : ℕ) : Tqdm → List (ℕ × ℤ) → Tqdm × List String
  | t, [] => (t, [])
  | t, (c, now) :: rest =>
    let r := driverHook end_it t c now
    let rr := runHook end_it r.1 rest
    (rr.1, r.2 :: rr.2)

/-- Embeds the `ProgressBar` renderer state
(progress_bar.hpp lines 13-54). -/
structure ProgressBar where
  width_ : ℤ
  patterns_ : List String
  percentage_ : ℚ
deriving DecidableEq

/-- Embeds `ProgressBar::toString` (progress_bar.hpp lines 32-46).
`num` is the C++ `int num = (percentage_ - 1e-5) * width_ * pattern_num;`
(cast truncates toward zero; the literal `1e-5` is modelled by the
exact rational `1/100000`).  Division and remainder on `int` truncate
toward zero.  A negative loop bound runs the loop zero times
(`Int.toNat` clamps).  `patterns_[...]` out of range is undefined
behaviour in C++; the model clamps with a default — every theorem
below only exercises in-range indices. -/
def ProgressBar.toString (b : ProgressBar) : String :=
  if b.width_ ≤ 0 then "" else
    let pattern_num : ℤ := (b.patterns_.length : ℤ) - 1
    let num : ℤ := truncQ ((b.percentage_ - 1 / 100000) * (b.width_ : ℚ) *
      ((pattern_num : ℤ) : ℚ))
    String.join (List.replicate (Int.tdiv num pattern_num).toNat
        (b.patterns_.getLastD "")) ++
      b.patterns_.getD (Int.tmod num pattern_num + 1).toNat "" ++
      String.join (List.replicate (b.width_ - Int.tdiv num pattern_num - 1).toNat
        (b.patterns_.headD ""))

/-- The concrete configuration of the end-to-end scenario: a wrapped
five-element sequence with title `"t"`, `mininterval = 0` (no
throttling), bar width 5, constructed at time 0. -/
def sampleTqdm : Tqdm :=
  Tqdm.make 5 "t" 0 5 0

/-- The (cursor, wall-clock) hook invocations of a full traversal of
the five-element sequence, all at time 0. -/
def sampleCalls : List (ℕ × ℤ) :=
  (IteratorHook.fullTraversal ⟨0, 5⟩).map (fun c => (c, (0 : ℤ)))

/-! ### Helper lemmas -/

theorem traverseLoop_range (n : ℕ) : ∀ p : ℕ,
    traverseLoop n ⟨p, true⟩ (p + n) = List.range' (p + 1) n := by
  induction n with
  | zero => intro p; simp [traverseLoop]
  | succ n ih =>
    intro p
    have hne : p ≠ p + (n + 1) := by omega
    have harg : p + (n + 1) = (p + 1) + n := by omega
    simp only [traverseLoop, Iterator.inc, hne, if_false, if_true]
    rw [harg, ih (p + 1), List.range'_succ]
    rfl

theorem fullTraversal_eq (b e : ℕ) (h : b ≤ e) :
    IteratorHook.fullTraversal ⟨b, e⟩ = List.range' b (e - b + 1) := by
  have he : e = b + (e - b) := by omega
  calc IteratorHook.fullTraversal ⟨b, e⟩
      = [b] ++ traverseLoop (e - b) ⟨b, true⟩ (b + (e - b)) := by
        simp only [IteratorHook.fullTraversal, IteratorHook.begin]
        rw [← he]
    _ = [b] ++ List.range' (b + 1) (e - b) := by rw [traverseLoop_range]
    _ = List.range' b (e - b + 1) := by rw [List.range'_succ]; rfl

theorem digitChar_ne_newline (m : ℕ) (h : m < 10) : Nat.digitChar m ≠ '\n' := by
  interval_cases m <;> decide

theorem natDigits_ne_newline (fuel : ℕ) : ∀ n : ℕ, '\n' ∉ natDigits fuel n := by
  induction fuel with
  | zero => intro n; simp [natDigits]
  | succ fuel ih =>
    intro n
    by_cases h : n < 10
    · simpa [natDigits, h] using (digitChar_ne_newline n h).symm
    · simp only [natDigits, h, if_false, List.mem_append, List.mem_singleton]
      push_neg
      exact ⟨ih (n / 10),
        (digitChar_ne_newline (n % 10) (Nat.mod_lt _ (by omega))).symm⟩

theorem to_string_nat_ne_newline (n : ℕ) : '\n' ∉ (to_string_nat n).data :=
  natDigits_ne_newline (n + 1) n

theorem to_string_int_ne_newline (i : ℤ) : '\n' ∉ (to_string_int i).data := by
  unfold to_string_int
  by_cases h : i < 0 <;>
    simp [h, String.data_append, to_string_nat_ne_newline, String.data]

theorem pad2_ne_newline (v : ℤ) : '\n' ∉ (pad2 v).data := by
  unfold pad2
  by_cases h : (to_string_int v).length < 2 <;>
    simp [h, String.data_append, to_string_int_ne_newline, String.data]

theorem to_time_string_ne_newline (ms : ℤ) :
    '\n' ∉ (to_time_string ms).data := by
  unfold to_time_string
  simp [String.data_append, pad2_ne_newline, String.data]

theorem tqdmBar_ne_newline (w : ℤ) (p : ℚ) : '\n' ∉ (tqdmBar w p).data := by
  unfold tqdmBar
  intro hmem
  simp only [String.data] at hmem
  obtain ⟨i, -, hi⟩ := List.mem_map.mp hmem
  by_cases h : (i : ℚ) / (w : ℚ) ≤ p <;> simp [h] at hi

theorem frame_ne_newline (t : Tqdm) (h : '\n' ∉ t.title_.data) :
    '\n' ∉ t.frame.data := by
  unfold Tqdm.frame
  simp [String.data_append, h, tqdmBar_ne_newline, to_string_int_ne_newline,
    to_string_nat_ne_newline, to_time_string_ne_newline, String.data]

theorem natDigits_small (fuel n : ℕ) (h : n < 10) :
    natDigits (fuel + 1) n = [Nat.digitChar n] := by
  simp [natDigits, h]

theorem to_string_nat_length_one (n : ℕ) (h : n < 10) :
    (to_string_nat n).length = 1 := by
  unfold to_string_nat
  rw [String.length, natDigits_small n n h]
  rfl

theorem to_string_nat_length_two (n : ℕ) (h1 : 10 ≤ n) (h2 : n < 100) :
    (to_string_nat n).length = 2 := by
  obtain ⟨m, rfl⟩ : ∃ m, n = m + 1 := ⟨n - 1, by omega⟩
  have hn : ¬ m + 1 < 10 := by omega
  have hq : (m + 1) / 10 < 10 := by omega
  obtain ⟨k, hk⟩ : ∃ k, m = k + 1 := ⟨m - 1, by omega⟩
  unfold to_string_nat
  rw [String.length]
  show (natDigits (m + 1 + 1) (m + 1)).length = 2
  rw [show natDigits (m + 1 + 1) (m + 1)
      = natDigits (m + 1) ((m + 1) / 10) ++ [Nat.digitChar ((m + 1) % 10)] by
    simp [natDigits, hn]]
  rw [hk, natDigits_small (k + 1) _ (by omega)]
  rfl

theorem to_string_nat_length_pos (n : ℕ) : 1 ≤ (to_string_nat n).length := by
  unfold to_string_nat
  rw [String.length]
  show 1 ≤ (natDigits (n + 1) n).length
  by_cases h : n < 10
  · rw [natDigits_small n n h]
    simp
  · simp only [natDigits, h, if_false, List.length_append, List.length_singleton]
    omega

theorem to_string_int_length_pos (v : ℤ) : 1 ≤ (to_string_int v).length := by
  unfold to_string_int
  by_cases h : v < 0
  · simp only [h, if_true]
    rw [String.length, String.data_append]
    have := to_string_nat_length_pos v.natAbs
    rw [String.length] at this
    simp only [List.length_append]
    omega
  · simpa [h] using to_string_nat_length_pos v.natAbs

theorem pad2_length_ge_two (v : ℤ) : 2 ≤ (pad2 v).length := by
  unfold pad2
  by_cases h : (to_string_int v).length < 2
  · simp only [h, if_true, String.length_append]
    have hp := to_string_int_length_pos v
    have h0 : ("0" : String).length = 1 := rfl
    omega
  · simp only [h, if_false]
    omega

theorem pad2_length_eq_two (v : ℤ) (h1 : 0 ≤ v) (h2 : v < 100) :
    (pad2 v).length = 2 := by
  have hv : to_string_int v = to_string_nat v.natAbs := by
    unfold to_string_int
    simp [not_lt.mpr h1]
  by_cases h : v.natAbs < 10
  · have hlen : (to_string_int v).length = 1 := by
      rw [hv]; exact to_string_nat_length_one _ h
    unfold pad2
    rw [if_pos (by rw [hlen]; omega), String.length_append, hlen]
    rfl
  · have hlen : (to_string_int v).length = 2 := by
      rw [hv]
      exact to_string_nat_length_two _ (by omega) (by omega)
    unfold pad2
    rw [if_neg (by rw [hlen]; omega)]
    exact hlen

theorem truncQ_eq_zero (q : ℚ) (h1 : -1 < q) (h2 : q < 1) : truncQ q = 0 := by
  have hd : (0 : ℚ) < (q.den : ℚ) := by exact_mod_cast q.pos
  have hnum : (q.num : ℚ) = q * (q.den : ℚ) := by
    have h := Rat.num_div_den q
    rw [div_eq_iff hd.ne'] at h
    exact h
  have hlt : q.num < (q.den : ℤ) := by
    have : (q.num : ℚ) < (q.den : ℚ) := by
      rw [hnum]
      calc q * (q.den : ℚ) < 1 * (q.den : ℚ) := by
            exact mul_lt_mul_of_pos_right h2 hd
        _ = (q.den : ℚ) := one_mul _
    exact_mod_cast this
  have hgt : -(q.den : ℤ) < q.num := by
    have : -(q.den : ℚ) < (q.num : ℚ) := by
      rw [hnum]
      calc -(q.den : ℚ) = (-1) * (q.den : ℚ) := by ring
        _ < q * (q.den : ℚ) := mul_lt_mul_of_pos_right h1 hd
    exact_mod_cast this
  unfold truncQ
  rcases le_or_lt 0 q.num with hn | hn
  · exact Int.tdiv_eq_zero_of_lt hn hlt
  · rw [← Int.neg_neg q.num, Int.neg_tdiv,
      Int.tdiv_eq_zero_of_lt (by omega) (by omega), neg_zero]

theorem driverHook_preserves (end_it : ℕ) (t : Tqdm) (c : ℕ) (now : ℤ) :
    (driverHook end_it t c now).1.title_ = t.title_ ∧
    (driverHook end_it t c now).1.size_ = t.size_ := by
  unfold driverHook Tqdm.render Tqdm.step
  dsimp only
  split <;> split <;> first
    | exact ⟨rfl, rfl⟩
    | split <;> exact ⟨rfl, rfl⟩

theorem driverHook_chunk_ne_newline (end_it : ℕ) (t : Tqdm) (c : ℕ) (now : ℤ)
    (hnl : '\n' ∉ t.title_.data) (hne : c ≠ end_it) :
    '\n' ∉ ((driverHook end_it t c now).2).data := by
  unfold driverHook
  rw [if_neg hne]
  unfold Tqdm.render
  split
  · intro hmem
    simp at hmem
  · simpa using frame_ne_newline t hnl

theorem runHook_ne_newline (end_it : ℕ) (calls : List (ℕ × ℤ)) :
    ∀ t : Tqdm, '\n' ∉ t.title_.data → (∀ p ∈ calls, p.1 ≠ end_it) →
      ∀ chunk ∈ (runHook end_it t calls).2, '\n' ∉ chunk.data := by
  induction calls with
  | nil =>
    intro t _ _ chunk hchunk
    simp [runHook] at hchunk
  | cons p rest ih =>
    obtain ⟨c, nw⟩ := p
    intro t hnl hne chunk hchunk
    simp only [runHook, List.mem_cons] at hchunk
    rcases hchunk with rfl | hmem
    · exact driverHook_chunk_ne_newline end_it t c nw hnl
        (hne (c, nw) (List.mem_cons_self _ _))
    · have hpres := (driverHook_preserves end_it t c nw).1
      exact ih (driverHook end_it t c nw).1 (hpres ▸ hnl)
        (fun q hq => hne q (List.mem_cons_of_mem _ hq)) chunk hmem

/-! ### Claim theorems -/

section ClaimTheorems

attribute [local semireducible] Rat.mul Rat.inv Rat.add Rat.sub Rat.ofScientific

/-- C1: for a sequence of length `N = e - b` wrapped between cursors
`b ≤ e`, a full traversal invokes the hook exactly `N + 1` times,
with the cursors `b, b+1, ..., e` in order: once on `begin()` (with
the begin cursor, before any element is consumed) and once after each
of the `N` advances (with the post-advance cursor); the final
invocation's cursor equals the end cursor, and an empty sequence
(`b = e`) yields exactly one invocation, with the cursor already at
the end. -/
theorem C1_hook_invocations (b e : ℕ) (h : b ≤ e) :
    IteratorHook.fullTraversal ⟨b, e⟩ = List.range' b (e - b + 1) ∧
    (IteratorHook.fullTraversal ⟨b, e⟩).length = (e - b) + 1 ∧
    (IteratorHook.fullTraversal ⟨b, e⟩).head? = some b ∧
    (IteratorHook.fullTraversal ⟨b, e⟩).getLast? = some e := by
  have heq := fullTraversal_eq b e h
  refine ⟨heq, ?_, ?_, ?_⟩
  · rw [heq, List.length_range']
  · rw [heq, List.head?_range']
    simp
  · rw [heq, List.range'_concat, List.getLast?_concat]
    congr 1
    omega

/-- C1 witness: a concrete traversal of a three-element sequence
fires the hook four times, at cursors 0, 1, 2, 3. -/
theorem C1_hook_invocations_witness :
    IteratorHook.fullTraversal ⟨0, 3⟩ = List.range' 0 (3 - 0 + 1) ∧
    (IteratorHook.fullTraversal ⟨0, 3⟩).length = (3 - 0) + 1 ∧
    (IteratorHook.fullTraversal ⟨0, 3⟩).head? = some 0 ∧
    (IteratorHook.fullTraversal ⟨0, 3⟩).getLast? = some 3 :=
  C1_hook_invocations 0 3 (by decide)

/-- C2 counterexample: the claim asserts the counter is monotonically
non-decreasing under every operation of the state including `reset`,
but `reset()` on a state whose counter is `2` lowers it to `0`. -/
theorem C2_counterexample :
    (Tqdm.reset ⟨5, "", 100, 10, 2, false, 0, 0, 0⟩ 7).step_ <
      (⟨5, "", 100, 10, 2, false, 0, 0, 0⟩ : Tqdm).step_ := by
  decide

/-- C2 amended: the counter satisfies `0 ≤ step_ ≤ size_` at every
point of every traversal (it is a natural number, `step()` preserves
the upper bound, `reset` re-establishes it); `step()` and rendering
are monotonically non-decreasing in the counter (`reset` instead
clears it to `0`); and `step()` called when `step_ = size_` leaves
the whole state unchanged and returns the counter. -/
theorem C2_amended (t : Tqdm) (now : ℤ) (hinv : t.step_ ≤ t.size_) :
    (Tqdm.reset t now).step_ = 0 ∧
    (Tqdm.reset t now).step_ ≤ (Tqdm.reset t now).size_ ∧
    t.step_ ≤ (Tqdm.step t now).1.step_ ∧
    (Tqdm.step t now).1.step_ ≤ (Tqdm.step t now).1.size_ ∧
    (Tqdm.render t now).1.step_ = t.step_ ∧
    (t.step_ = t.size_ → Tqdm.step t now = (t, t.step_)) := by
  refine ⟨rfl, Nat.zero_le _, ?_, ?_, ?_, ?_⟩
  · unfold Tqdm.step
    split <;> simp
  · unfold Tqdm.step
    split <;> simp <;> omega
  · unfold Tqdm.render
    split <;> simp
  · intro hfull
    unfold Tqdm.step
    rw [if_neg (by omega)]

/-- C2 witness: the amended properties at a concrete mid-traversal
state. -/
theorem C2_amended_witness :
    (Tqdm.reset ⟨5, "t", 100, 10, 3, false, 0, 2, 1⟩ 9).step_ = 0 ∧
    (Tqdm.reset ⟨5, "t", 100, 10, 3, false, 0, 2, 1⟩ 9).step_ ≤
      (Tqdm.reset ⟨5, "t", 100, 10, 3, false, 0, 2, 1⟩ 9).size_ ∧
    (⟨5, "t", 100, 10, 3, false, 0, 2, 1⟩ : Tqdm).step_ ≤
      (Tqdm.step ⟨5, "t", 100, 10, 3, false, 0, 2, 1⟩ 9).1.step_ ∧
    (Tqdm.step ⟨5, "t", 100, 10, 3, false, 0, 2, 1⟩ 9).1.step_ ≤
      (Tqdm.step ⟨5, "t", 100, 10, 3, false, 0, 2, 1⟩ 9).1.size_ ∧
    (Tqdm.render ⟨5, "t", 100, 10, 3, false, 0, 2, 1⟩ 9).1.step_ =
      (⟨5, "t", 100, 10, 3, false, 0, 2, 1⟩ : Tqdm).step_ ∧
    ((⟨5, "t", 100, 10, 3, false, 0, 2, 1⟩ : Tqdm).step_ =
        (⟨5, "t", 100, 10, 3, false, 0, 2, 1⟩ : Tqdm).size_ →
      Tqdm.step ⟨5, "t", 100, 10, 3, false, 0, 2, 1⟩ 9 =
        (⟨5, "t", 100, 10, 3, false, 0, 2, 1⟩, 3)) :=
  C2_amended ⟨5, "t", 100, 10, 3, false, 0, 2, 1⟩ 9 (by decide)

/-- C4: the claim says the render-time division by `total` is guarded
and yields fraction `0` when `total = 0`; in the code the division
`double(tqdm.step_) / tqdm.size_` is unguarded, so for an empty
sequence it evaluates `0.0 / 0.0 = NaN` — a non-finite value, not
`0` — and the subsequent `int(processed * 100)` conversion of that
NaN is undefined behaviour rather than degenerate-but-valid output. -/
theorem C4_division_unguarded :
    processedIEEE 0 0 = none ∧ processedIEEE 0 0 ≠ some 0 := by
  decide

/-- C5: a frame is written exactly when the state is on its first
print, or complete, or at least `mininterval_` milliseconds have
passed since the last print; and whenever a frame is written the
state records `now` as the last print time and clears the
first-print flag. -/
theorem C5_throttle_rule (t : Tqdm) (now : ℤ) :
    ((Tqdm.render t now).2 ≠ none ↔
      (t.first_print_ = true ∨ t.isEnd = true ∨
        t.mininterval_ ≤ now - t.last_print_time_)) ∧
    ((Tqdm.render t now).2 ≠ none →
      (Tqdm.render t now).1.last_print_time_ = now ∧
      (Tqdm.render t now).1.first_print_ = false) := by
  unfold Tqdm.render
  by_cases hc : t.first_print_ = false ∧ t.isEnd = false ∧
      now - t.last_print_time_ < t.mininterval_
  · rw [if_pos hc]
    obtain ⟨h1, h2, h3⟩ := hc
    constructor
    · simp [h1, h2]
      omega
    · simp
  · rw [if_neg hc]
    constructor
    · simp only [ne_eq, Option.some_ne_none, not_false_eq_true, true_iff]
      by_cases h1 : t.first_print_ = true
      · exact Or.inl h1
      · by_cases h2 : t.isEnd = true
        · exact Or.inr (Or.inl h2)
        · refine Or.inr (Or.inr ?_)
          simp only [Bool.not_eq_true] at h1 h2
          by_contra h3
          exact hc ⟨h1, h2, by omega⟩
    · intro
      exact ⟨rfl, rfl⟩

/-- C5 witness: a second call 50 ms after a render, with
`mininterval_ = 100`, neither first nor complete, writes nothing;
and on a state that does render, the bookkeeping updates fire. -/
theorem C5_throttle_rule_witness :
    (Tqdm.render ⟨5, "", 100, 10, 1, false, 0, 0, 100⟩ 150).2 = none ∧
    (Tqdm.render ⟨5, "", 100, 10, 5, false, 0, 0, 100⟩ 150).1.last_print_time_ = 150 ∧
    (Tqdm.render ⟨5, "", 100, 10, 5, false, 0, 0, 100⟩ 150).1.first_print_ = false := by
  refine ⟨?_, (C5_throttle_rule ⟨5, "", 100, 10, 5, false, 0, 0, 100⟩ 150).2 ?_⟩
  · by_contra hsome
    have h := ((C5_throttle_rule ⟨5, "", 100, 10, 1, false, 0, 0, 100⟩ 150).1).mp hsome
    revert h
    decide
  · decide

/-- C3 counterexample: the claim asserts that with glyph set
`[" ", "#"]` and width 10 a fraction of 0.0 renders the all-empty
bar of ten spaces; the code instead always emits one partial-cell
glyph `patterns_[num % pattern_num + 1]`, so fraction 0.0 yields
`"#"` followed by nine spaces. -/
theorem C3_counterexample :
    ProgressBar.toString ⟨10, [" ", "#"], 0⟩ = "#         " ∧
    ("#         " : String) ≠ "          " := by
  decide

/-- C3 amended: for every glyph set of length `≥ 2` and positive
width with `width × (length − 1) < 100000` (so the `ε`-shifted unit
count truncates to zero), the renderer at fraction 0 returns one copy
of `glyph_levels[1]` followed by `width − 1` copies of the empty
glyph `glyph_levels[0]` — not the all-empty bar. -/
theorem C3_amended (g : List String) (w : ℤ) (hg : 2 ≤ g.length)
    (hw : 0 < w) (hsmall : w * ((g.length : ℤ) - 1) < 100000) :
    ProgressBar.toString ⟨w, g, 0⟩ =
      g.getD 1 "" ++ String.join (List.replicate (w - 1).toNat (g.headD "")) := by
  have hLpos : (0 : ℤ) < (g.length : ℤ) - 1 := by
    have : (2 : ℤ) ≤ (g.length : ℤ) := by exact_mod_cast hg
    omega
  have hwQ : (0 : ℚ) < ((w : ℤ) : ℚ) := by exact_mod_cast hw
  have hLQ : (0 : ℚ) < (((g.length : ℤ) - 1 : ℤ) : ℚ) := by exact_mod_cast hLpos
  have hxQ : ((w : ℤ) : ℚ) * (((g.length : ℤ) - 1 : ℤ) : ℚ) < 100000 := by
    have h100 : ((w * ((g.length : ℤ) - 1) : ℤ) : ℚ) < ((100000 : ℤ) : ℚ) := by
      exact_mod_cast hsmall
    push_cast at h100
    push_cast
    linarith
  have hring : ((0 : ℚ) - 1 / 100000) * ((w : ℤ) : ℚ) * (((g.length : ℤ) - 1 : ℤ) : ℚ) =
      -(((w : ℤ) : ℚ) * (((g.length : ℤ) - 1 : ℤ) : ℚ)) / 100000 := by
    ring
  have harg1 : (-1 : ℚ) < ((0 : ℚ) - 1 / 100000) * ((w : ℤ) : ℚ) * (((g.length : ℤ) - 1 : ℤ) : ℚ) := by
    rw [hring]
    have hx : (0 : ℚ) < ((w : ℤ) : ℚ) * (((g.length : ℤ) - 1 : ℤ) : ℚ) :=
      mul_pos hwQ hLQ
    linarith
  have harg2 : ((0 : ℚ) - 1 / 100000) * ((w : ℤ) : ℚ) * (((g.length : ℤ) - 1 : ℤ) : ℚ) < 1 := by
    rw [hring]
    have hx : (0 : ℚ) < ((w : ℤ) : ℚ) * (((g.length : ℤ) - 1 : ℤ) : ℚ) :=
      mul_pos hwQ hLQ
    linarith
  have hnum := truncQ_eq_zero _ harg1 harg2
  unfold ProgressBar.toString
  simp only [if_neg (by omega : ¬ w ≤ 0)]
  rw [hnum]
  rw [Int.zero_tdiv, Int.zero_tmod]
  simp only [Int.toNat_zero, List.replicate_zero, zero_add, Int.sub_zero]
  rw [show String.join ([] : List String) = "" from rfl]
  rfl

/-- C3 witness: the amended statement at glyph set `[" ", "#"]` and
width 10. -/
theorem C3_amended_witness :
    ProgressBar.toString ⟨10, [" ", "#"], 0⟩ =
      ([" ", "#"] : List String).getD 1 "" ++
        String.join (List.replicate ((10 : ℤ) - 1).toNat
          (([" ", "#"] : List String).headD "")) :=
  C3_amended [" ", "#"] 10 (by decide) (by decide) (by decide)

/-- C6 counterexample: the claim asserts the first written bar is the
all-empty `"     "`; because the bar loop fills cell `i` whenever
`double(i)/width <= processed` — and `0/5 <= 0` holds — the first
frame's bar is already `"=    "` (and the glyph is `'='`, the `Tqdm`
renderer having no glyph-set parameter at all). -/
theorem C6_counterexample :
    (runHook 5 sampleTqdm sampleCalls).2.head? =
      some ("\rt [" ++ "=    " ++ "] 0% 0/5 [00:00:00<00:00:00]") ∧
    ("=    " : String) ≠ "     " := by
  decide

/-- C6 amended: stepping the wrapped five-element sequence (total 5,
width 5, title "t", no throttling) writes exactly six frames whose
bars are `"=    "`, `"==   "`, `"===  "`, `"==== "`, `"====="`,
`"====="` (glyph `'='`, one cell already filled at 0%), at
percentages 0, 20, 40, 60, 80, 100, each frame reflecting the state
before that call's increment, with the last frame followed by a line
terminator and no further output afterward. -/
theorem C6_amended :
    (runHook 5 sampleTqdm sampleCalls).2 =
      ["\rt [" ++ "=    " ++ "] 0% 0/5 [00:00:00<00:00:00]",
       "\rt [" ++ "==   " ++ "] 20% 1/5 [00:00:00<00:00:00]",
       "\rt [" ++ "===  " ++ "] 40% 2/5 [00:00:00<00:00:00]",
       "\rt [" ++ "==== " ++ "] 60% 3/5 [00:00:00<00:00:00]",
       "\rt [" ++ "=====" ++ "] 80% 4/5 [00:00:00<00:00:00]",
       "\rt [" ++ "=====" ++ "] 100% 5/5 [00:00:00<00:00:00]" ++ "\n"] := by
  decide

/-- C7: every frame the stream operator writes is a single
carriage-return-prefixed line of the shape
`<CR><title> [<bar>] <percent>% <current>/<total>
[<estimated_total_time>`<`<elapsed_time>]`, with the estimated-total
time before the `'<'` separator and the elapsed time after it, and
the frame itself contains no line terminator (for a title containing
none; the terminal terminator is appended only by the driver's
end-of-sequence branch). -/
theorem C7_frame_format (t : Tqdm) (now : ℤ) (out : String)
    (_hsz : t.size_ ≠ 0) (hnl : '\n' ∉ t.title_.data)
    (hout : (Tqdm.render t now).2 = some out) :
    out = "\r" ++ t.title_ ++ " [" ++ tqdmBar t.width_ t.processed ++ "] " ++
      to_string_int (truncQ (t.processed * 100)) ++ "% " ++
      to_string_nat t.step_ ++ "/" ++ to_string_nat t.size_ ++ " [" ++
      to_time_string t.estimated_time ++ "<" ++
      to_time_string t.passed_time ++ "]" ∧
    '\n' ∉ out.data := by
  have hframe : out = t.frame := by
    unfold Tqdm.render at hout
    split at hout
    · simp at hout
    · simp only [Option.some.injEq] at hout
      exact hout.symm
  constructor
  · rw [hframe]
    unfold Tqdm.frame
    rw [show ("] " : String) = "]" ++ " " from rfl,
      show ("% " : String) = "%" ++ " " from rfl]
    simp only [String.append_assoc]
  · rw [hframe]
    exact frame_ne_newline t hnl

/-- C7 witness: the first frame of the end-to-end scenario has
exactly the claimed shape and no newline. -/
theorem C7_frame_format_witness :
    ("\rt [=    ] 0% 0/5 [00:00:00<00:00:00]" : String) =
      "\r" ++ sampleTqdm.title_ ++ " [" ++
        tqdmBar sampleTqdm.width_ sampleTqdm.processed ++ "] " ++
        to_string_int (truncQ (sampleTqdm.processed * 100)) ++ "% " ++
        to_string_nat sampleTqdm.step_ ++ "/" ++ to_string_nat sampleTqdm.size_ ++
        " [" ++ to_time_string sampleTqdm.estimated_time ++ "<" ++
        to_time_string sampleTqdm.passed_time ++ "]" ∧
    '\n' ∉ ("\rt [=    ] 0% 0/5 [00:00:00<00:00:00]" : String).data :=
  C7_frame_format sampleTqdm 0 "\rt [=    ] 0% 0/5 [00:00:00<00:00:00]"
    (by decide) (by decide) (by decide)

/-- C8 counterexample: the claim says every field is two digits; at
100 hours (360 000 000 ms) the hour field is `"100"` — `setw(2)` is
only a minimum — so the formatted string has nine characters, not
the eight of a two-digit `HH:MM:SS`. -/
theorem C8_counterexample :
    to_time_string 360000000 = "100:00:00" ∧
    ("100:00:00" : String).length ≠ 8 := by
  decide

/-- C8 amended: for every nonnegative millisecond duration the
formatter yields `H:M:S` computed by truncating division by
3 600 000, then `(ms mod 3 600 000) / 60 000`, then
`(ms mod 60 000) / 1000`, with no rounding; the minute and second
fields are exactly two digits (zero-padded), the hour field at least
two digits (zero-padded, but growing beyond two digits from 100
hours on); in particular 3 661 000 ms formats as `"01:01:01"` and 0
ms as `"00:00:00"`. -/
theorem C8_amended (msn : ℕ) :
    to_time_string (msn : ℤ) =
      pad2 ((msn : ℤ) / 3600000) ++ ":" ++
        pad2 ((msn : ℤ) % 3600000 / 60000) ++ ":" ++
        pad2 ((msn : ℤ) % 60000 / 1000) ∧
    0 ≤ (msn : ℤ) % 3600000 / 60000 ∧ (msn : ℤ) % 3600000 / 60000 < 60 ∧
    0 ≤ (msn : ℤ) % 60000 / 1000 ∧ (msn : ℤ) % 60000 / 1000 < 60 ∧
    (msn : ℤ) = 3600000 * ((msn : ℤ) / 3600000) +
      60000 * ((msn : ℤ) % 3600000 / 60000) +
      1000 * ((msn : ℤ) % 60000 / 1000) + (msn : ℤ) % 1000 ∧
    (pad2 ((msn : ℤ) % 3600000 / 60000)).length = 2 ∧
    (pad2 ((msn : ℤ) % 60000 / 1000)).length = 2 ∧
    2 ≤ (pad2 ((msn : ℤ) / 3600000)).length ∧
    to_time_string 3661000 = "01:01:01" ∧
    to_time_string 0 = "00:00:00" := by
  have h : (0 : ℤ) ≤ (msn : ℤ) := Int.natCast_nonneg msn
  have hm1 : (0 : ℤ) ≤ (msn : ℤ) % 3600000 := Int.emod_nonneg _ (by norm_num)
  have hm2 : (0 : ℤ) ≤ (msn : ℤ) % 60000 := Int.emod_nonneg _ (by norm_num)
  have d0 : Int.tdiv (msn : ℤ) 3600000 = (msn : ℤ) / 3600000 :=
    Int.tdiv_eq_ediv h (by norm_num)
  have e1 : Int.tmod (msn : ℤ) 3600000 = (msn : ℤ) % 3600000 :=
    Int.tmod_eq_emod h (by norm_num)
  have e2 : Int.tmod (msn : ℤ) 60000 = (msn : ℤ) % 60000 :=
    Int.tmod_eq_emod h (by norm_num)
  have d1 : Int.tdiv (Int.tmod (msn : ℤ) 3600000) 60000 =
      (msn : ℤ) % 3600000 / 60000 := by
    rw [e1]
    exact Int.tdiv_eq_ediv hm1 (by norm_num)
  have d2 : Int.tdiv (Int.tmod (msn : ℤ) 60000) 1000 =
      (msn : ℤ) % 60000 / 1000 := by
    rw [e2]
    exact Int.tdiv_eq_ediv hm2 (by norm_num)
  refine ⟨by unfold to_time_string; rw [d0, d1, d2], by omega, by omega,
    by omega, by omega, by omega, ?_, ?_, pad2_length_ge_two _,
    by decide, by decide⟩
  · exact pad2_length_eq_two _ (by omega) (by omega)
  · exact pad2_length_eq_two _ (by omega) (by omega)

/-- C9: the driver hook writes a line terminator only on the
invocation whose cursor equals the end cursor; there the final frame
is rendered unconditionally (the throttle cannot suppress it because
the state is complete) and the counter is not stepped — the full
post-state differs from the pre-state only in the render
bookkeeping; every non-end invocation writes no `'\n'` at all, so a
traversal the caller stops before the end cursor never writes a
terminator and the sink ends on the last partial frame. -/
theorem C9_line_terminator (t : Tqdm) (end_it : ℕ) (now : ℤ)
    (_hsz : t.size_ ≠ 0) (hnl : '\n' ∉ t.title_.data) :
    (t.isEnd = true →
      driverHook end_it t end_it now =
        ({ t with last_print_time_ := now, first_print_ := false },
          t.frame ++ "\n")) ∧
    (∀ c, c ≠ end_it → '\n' ∉ ((driverHook end_it t c now).2).data) ∧
    (∀ calls : List (ℕ × ℤ), (∀ p ∈ calls, p.1 ≠ end_it) →
      ∀ chunk ∈ (runHook end_it t calls).2, '\n' ∉ chunk.data) := by
  refine ⟨?_, ?_, ?_⟩
  · intro hend
    unfold driverHook
    rw [if_pos rfl]
    unfold Tqdm.render
    rw [if_neg (by simp [hend])]
    rfl
  · intro c hc
    exact driverHook_chunk_ne_newline end_it t c now hnl hc
  · intro calls hcalls
    exact runHook_ne_newline end_it calls t hnl hcalls

/-- C9 witness: at a concrete completed state, the end-cursor hook
writes the frame plus terminator while leaving the counter at 5, and
a non-end hook invocation writes no newline. -/
theorem C9_line_terminator_witness :
    driverHook 5 ⟨5, "t", 100, 5, 5, false, 0, 0, 0⟩ 5 0 =
      (⟨5, "t", 100, 5, 5, false, 0, 0, 0⟩,
        Tqdm.frame ⟨5, "t", 100, 5, 5, false, 0, 0, 0⟩ ++ "\n") ∧
    '\n' ∉ ((driverHook 5 ⟨5, "t", 100, 5, 5, false, 0, 0, 0⟩ 3 0).2).data :=
  ⟨(C9_line_terminator ⟨5, "t", 100, 5, 5, false, 0, 0, 0⟩ 5 0
      (by decide) (by decide)).1 (by decide),
    (C9_line_terminator ⟨5, "t", 100, 5, 5, false, 0, 0, 0⟩ 5 0
      (by decide) (by decide)).2.1 3 (by decide)⟩

/-- C10 counterexample: the claim asserts that advancing a
copy-constructed iterator still advances the underlying cursor; in
the code `operator++` increments the cursor only inside
`if (hook_) (*hook_)(++it_);`, so on a copy (whose hook is null) the
cursor stays where it was instead of moving to the next position. -/
theorem C10_counterexample :
    ((Iterator.copy ⟨0, true⟩).inc).1.it_ = 0 ∧ (0 : ℕ) ≠ 0 + 1 := by
  decide

/-- C10 amended: a copy made through the copy constructor has no hook
attached, and advancing it is a complete no-op — it neither invokes
the hook nor advances the underlying cursor; equality, inequality and
dereference on the copy behave identically to the original, and copy
assignment preserves both the cursor and the hook. -/
theorem C10_amended (i j : Iterator) (seq : ℕ → ℕ) :
    (Iterator.copy i).hook_ = false ∧
    (Iterator.copy i).inc = (Iterator.copy i, []) ∧
    (Iterator.copy i).eqIt j = i.eqIt j ∧
    (Iterator.copy i).neIt j = i.neIt j ∧
    Iterator.deref seq (Iterator.copy i) = Iterator.deref seq i ∧
    (Iterator.assign i j).it_ = j.it_ ∧
    (Iterator.assign i j).hook_ = j.hook_ := by
  refine ⟨rfl, ?_, rfl, rfl, rfl, rfl, rfl⟩
  simp [Iterator.inc, Iterator.copy]

end ClaimTheorems

end TqdmCpp
